import Mathlib

/-!
Shallow embedding of `copywriter.py` (TryExceptElse/copywriter).

Strings are modelled as `List Char` (Python `str`).  A file's text content
is a `List Char`; the line lists produced by Python's `f.readlines()` are
`List (List Char)` where each line keeps its trailing newline character.

The two module-level regular expressions are embedded as executable
matchers with Python `re` leftmost-match semantics:

  * `YEAR_PATTERN = '[0-9]{4}( *-? *[0-9]{4})?'` — `matchYearAt` /
    `findYearSplit`;
  * `COPYRIGHT_REGEX = 'Copyright .*'` (the default `copyright_re`) —
    `findCopyrightSplit`.

External collaborators (git, the filesystem) are parameters: the file's
last-modification year (`TxtFile.modification_year`, obtained from git)
is a `Nat` argument named `modYear`, and the filesystem seen by
`Copywriter._find_files` is an explicit `FS` record.
-/

namespace copywriter

/-- Python's `string.whitespace` characters (`' \t\n\r\x0b\x0c'`), used by
the membership test in `TxtFile._add_block_notice.expand_existing_block`
and by `str.rstrip`. -/
def isPyWhitespace (c : Char) : Bool :=
  c = ' ' || c = '\t' || c = '\n' || c = '\r' || c = '\x0b' || c = '\x0c'

/-- Literal part of `COPYRIGHT_REGEX = 'Copyright .*'`. -/
def copyrightLit : List Char := 'C' :: 'o' :: 'p' :: 'y' :: 'r' :: 'i' :: 'g' :: 'h' :: 't' :: [' ']

/-- Matcher for `[0-9]{4}`: exactly four decimal digits at the start of the
input; returns the four digit characters and the remaining input. -/
def match4Digits : List Char → Option (List Char × List Char)
  | a :: b :: c :: d :: rest =>
    if a.isDigit ∧ b.isDigit ∧ c.isDigit ∧ d.isDigit then
      some ([a, b, c, d], rest)
    else none
  | _ => none

/-- Matcher for the `-?` part of `YEAR_PATTERN`: splits off a leading
hyphen when present. -/
def splitDash : List Char → List Char × List Char
  | '-' :: t => (['-'], t)
  | r => ([], r)

/-- Matcher for `YEAR_PATTERN = '[0-9]{4}( *-? *[0-9]{4})?'` anchored at the
start of the input: four digits, then optionally spaces, an optional
hyphen, spaces and four more digits (the optional group is taken greedily,
exactly as Python's `re` does here since `' *'` can consume neither a
hyphen nor a digit).  Returns the matched token and the remaining input. -/
def matchYearAt (s : List Char) : Option (List Char × List Char) :=
  match match4Digits s with
  | none => none
  | some (d1, r1) =>
    match match4Digits ((splitDash (r1.dropWhile (· = ' '))).2.dropWhile (· = ' ')) with
    | some (d2, r5) =>
      some (d1 ++ r1.takeWhile (· = ' ') ++ (splitDash (r1.dropWhile (· = ' '))).1 ++
        (splitDash (r1.dropWhile (· = ' '))).2.takeWhile (· = ' ') ++ d2, r5)
    | none => some (d1, r1)

/-- Leftmost search for `YEAR_PATTERN` (Python `re.search`): returns
`(prefix before the match, matched token, suffix after the match)`. -/
def findYearSplit : List Char → Option (List Char × List Char × List Char)
  | [] => none
  | c :: t =>
    match matchYearAt (c :: t) with
    | some (tok, rest) => some ([], tok, rest)
    | none =>
      match findYearSplit t with
      | some (p, tok, r) => some (c :: p, tok, r)
      | none => none

/-- Leftmost search for `COPYRIGHT_REGEX = 'Copyright .*'` (Python
`re.search` with the default `copyright_re`): the match starts at the first
occurrence of the literal `"Copyright "` and extends to the end of the
line (`.` does not match a newline).  Returns
`(prefix, matched copyright string, suffix)`. -/
def findCopyrightSplit : List Char → Option (List Char × List Char × List Char)
  | [] => none
  | c :: t =>
    if copyrightLit <+: (c :: t) then
      let rest := (c :: t).drop copyrightLit.length
      some ([], copyrightLit ++ rest.takeWhile (· ≠ '\n'), rest.dropWhile (· ≠ '\n'))
    else
      match findCopyrightSplit t with
      | some (p, tok, r) => some (c :: p, tok, r)
      | none => none

/-- Embedding of `TxtFile.copyright_str`: searches only the first 1000
characters of the file content (`f.read(1000)`) for the copyright regular
expression and returns the matched string, or `[]` (Python `''`) if there
is no match. -/
def copyright_str (content : List Char) : List Char :=
  match findCopyrightSplit (content.take 1000) with
  | some (_, tok, _) => tok
  | none => []

/-- Python's `re.findall('[0-9]{4}', s)`: all non-overlapping four-digit
groups, scanning left to right (on a hit the scan resumes after the four
matched characters, on a miss it advances one character).  The `[0-9]{4}`
matcher is folded directly into the patterns so that the recursion is
structural. -/
def findAll4Digits : List Char → List (List Char)
  | a :: b :: c :: d :: rest =>
    if a.isDigit ∧ b.isDigit ∧ c.isDigit ∧ d.isDigit then
      [a, b, c, d] :: findAll4Digits rest
    else findAll4Digits (b :: c :: d :: rest)
  | _ => []

/-- Numeric value of a digit string (Python `int(y)` on a `findall`
result, which is always a four-digit group here). -/
def toYear (ds : List Char) : Nat :=
  ds.foldl (fun n c => n * 10 + (c.toNat - '0'.toNat)) 0

/-- Result of the `TxtFile.year_range` property: `err` models a raised
`ValueError` (missing copyright string, or a "confusing" year token whose
number of four-digit groups is neither 1 nor 2), `noYear` models the
`None` return (copyright string without any year token), and
`range s e` models Python's `range(years[0], years[-1] + 1)`. -/
inductive YearRangeResult
  | err : YearRangeResult
  | noYear : YearRangeResult
  | range : Nat → Nat → YearRangeResult
deriving DecidableEq, Repr

/-- Embedding of `TxtFile.year_range`. -/
def year_range (content : List Char) : YearRangeResult :=
  let cs := copyright_str content
  if cs = [] then .err
  else
    match findYearSplit cs with
    | none => .noYear
    | some (_, tok, _) =>
      match (findAll4Digits tok).map toYear with
      | [y] => .range y (y + 1)
      | [y1, y2] => .range y1 (y2 + 1)
      | _ => .err

/-- Embedding of `TxtFile.header_is_outdated`: a `ValueError` from
`year_range` is caught and yields `false`, a `None` year range yields
`false`, and otherwise the file's modification year is compared against
`range.stop`.  (In the `err` and `noYear` branches the code returns before
ever querying git for the modification year.) -/
def header_is_outdated (content : List Char) (modYear : Nat) : Bool :=
  match year_range content with
  | .err => false
  | .noYear => false
  | .range _ stop => decide (stop ≤ modYear)

/-- Decimal rendering of a natural number, as used by the f-string
`f'{self.year_range.start}-{self.modification_year}'`. -/
def natToDigits (n : Nat) : List Char := (Nat.repr n).data

/-- Python's `re.sub(YEAR_PATTERN, repl, s, count=1)`: replaces the first
year token, or leaves the string unchanged when there is no match.  The
replacement strings used by the code (`'{start}-{mod_year}'` and
`'{year}'`) contain no backslash, so `re`'s escape processing of the
replacement template is irrelevant and not modelled. -/
def sub_first_year (s repl : List Char) : List Char :=
  match findYearSplit s with
  | some (p, _, r) => p ++ repl ++ r
  | none => s

/-- Python's `re.sub(COPYRIGHT_REGEX, repl, content, count=1)` over the
whole file content (`TxtFile.update` reads the full file here, not just
the first 1000 characters).  The replacement string is inserted literally;
`re`'s backslash processing of the replacement template is not modelled
(the theorems about `update` assume the matched copyright text contains no
backslash, so the behaviours coincide). -/
def sub_first_copyright (content repl : List Char) : List Char :=
  match findCopyrightSplit content with
  | some (p, _, r) => p ++ repl ++ r
  | none => content

/-- Content computed by `TxtFile.update` before writing: the first year
token of the copyright string is rewritten to
`f'{year_range.start}-{modification_year}'` and the result replaces the
first copyright-regex match of the whole content.  `none` models the
exception propagating out of `self.year_range.start` (a `ValueError` for
a missing/confusing copyright string, an `AttributeError` when
`year_range` is `None`). -/
def update_content (content : List Char) (modYear : Nat) : Option (List Char) :=
  match year_range content with
  | .range s _ =>
    some (sub_first_copyright content
      (sub_first_year (copyright_str content) (natToDigits s ++ '-' :: natToDigits modYear)))
  | _ => none

/-- File content after `TxtFile.update`: the code does `f.seek(0)` and
`f.write(new_content)` on the file opened in `'r+'` mode without
truncating, so any trailing bytes of the original content beyond the new
content's length survive. -/
def update_file (content : List Char) (modYear : Nat) : Option (List Char) :=
  (update_content content modYear).map (fun nc => nc ++ content.drop nc.length)

/-- Placeholder `'{year}'` substituted by `TxtFile.format`. -/
def yearPh : List Char := '{' :: 'y' :: 'e' :: 'a' :: 'r' :: ['}']

/-- Embedding of `TxtFile.format`: `re.sub(YEAR_PATTERN, '{year}',
copyright_str, count=1)`.  When the file has no copyright string this is
a substitution on `''` and returns `''` (the surrounding
`except ValueError` is dead code: neither `copyright_str` nor `re.sub`
raises `ValueError` here). -/
def txt_format (content : List Char) : List Char :=
  sub_first_year (copyright_str content) yearPh

/-- Python `str.format` applied to this template instantiates every
`'{year}'` field with the given text.  (Real `str.format` additionally
raises on stray braces; this model is only used on brace-free text apart
from the placeholder itself.) -/
def replaceYearPh (y : List Char) : List Char → List Char
  | [] => []
  | c :: t =>
    if yearPh <+: (c :: t) then y ++ replaceYearPh y (t.drop 5)
    else c :: replaceYearPh y t
termination_by s => s.length
decreasing_by
  · simp
    omega
  · simp

/-- Embedding of the `FileType` named tuple. -/
structure FileType where
  name : List Char
  patterns : List (List Char)
  comment : List Char := []
  block_start : List Char := []
  block_end : List Char := []
  block_prefix : List Char := []
deriving DecidableEq, Repr

/-- The `'c-style'` entry of `file_types`. -/
def cStyleType : FileType :=
  { name := "c-style".data
    patterns := ["*.c".data, "*.cc".data, "*.cpp".data, "*.cxx".data,
      "*.h".data, "*.hh".data, "*.hpp".data]
    comment := "//".data
    block_start := "/*".data
    block_end := " */".data
    block_prefix := " * ".data }

/-- The `'py-style'` entry of `file_types`. -/
def pyStyleType : FileType :=
  { name := "py-style".data
    patterns := ["*.py".data, "*.pyi".data, "*.pyx".data, "*.pxd".data,
      "*.pyd".data, "*.pxi".data]
    comment := "#".data
    block_start := ['\"', '\"', '\"']
    block_end := ['\"', '\"', '\"']
    block_prefix := [] }

/-- The `'cmake'` entry of `file_types`. -/
def cmakeType : FileType :=
  { name := "cmake".data
    patterns := ["CMakeLists.txt".data, "*.cmake".data]
    comment := "#".data }

/-- The `'bash'` entry of `file_types`. -/
def bashType : FileType :=
  { name := "bash".data
    patterns := ["*.sh".data, "*.bash".data]
    comment := "#".data }

/-- The `file_types` table, in its (insertion-ordered) iteration order. -/
def fileTypesList : List FileType := [cStyleType, pyStyleType, cmakeType, bashType]

/-- Python `list.insert(i, x)` (for the indices `0` and `1` used here). -/
def insertAt (lines : List (List Char)) (i : Nat) (x : List Char) : List (List Char) :=
  lines.take i ++ x :: lines.drop i

/-- Shebang-aware insertion index shared by `_add_comment_notice` and
`create_new_block`: line 1 if line 0 starts with `'#!'`, else line 0 (an
empty file also inserts at 0). -/
def shebang_insert_i (lines : List (List Char)) : Nat :=
  match lines with
  | l0 :: _ => if ['#', '!'] <+: l0 then 1 else 0
  | [] => 0

/-- Embedding of `TxtFile._add_comment_notice`: inserts, as one element of
the line list, a bare comment line, a comment line carrying the notice and
another bare comment line. -/
def add_comment_notice (comment : List Char) (lines : List (List Char))
    (notice : List Char) : List (List Char) :=
  insertAt lines (shebang_insert_i lines)
    (comment ++ '\n' :: (comment ++ ' ' :: (notice ++ '\n' :: (comment ++ ['\n']))))

/-- Embedding of `find_block_start` inside `_add_block_notice`: index of
the first line starting with the block-start marker; `none` models the
raised `ValueError`. -/
def find_block_start (bs : List Char) : List (List Char) → Option Nat
  | [] => none
  | l :: rest =>
    if bs <+: l then some 0
    else (find_block_start bs rest).map (· + 1)

/-- Python `str.find`: index of the first occurrence of `pat` in `s`, with
`none` modelling the `-1` result.  (`''.find('')` is `0`.) -/
def str_find (pat : List Char) : List Char → Option Nat
  | [] => if pat = [] then some 0 else none
  | c :: t =>
    if pat <+: (c :: t) then some 0
    else (str_find pat t).map (· + 1)

/-- Value of `split_i` before the glued-character scan in
`expand_existing_block`: `original.find(block_start) + len(block_start)`.
The `none` branch mirrors Python's `-1 + len(block_start)`; it is
unreachable from `_add_block_notice` because the chosen line starts with
the marker. -/
def split_base (bs original : List Char) : Nat :=
  match str_find bs original with
  | some k => k + bs.length
  | none => bs.length - 1

/-- Scan of `while original[split_i] not in string.whitespace: split_i += 1`
restricted to the tail `original[split_i:]`: number of characters skipped
until the first whitespace character, or `none` when the scan runs past
the end of the string (Python raises `IndexError`). -/
def skipNonWs : List Char → Option Nat
  | [] => none
  | c :: t =>
    if isPyWhitespace c then some 0
    else (skipNonWs t).map (· + 1)

/-- Python `str.rstrip()` (on the ASCII whitespace relevant here). -/
def rstrip (s : List Char) : List Char :=
  (s.reverse.dropWhile isPyWhitespace).reverse

/-- Embedding of `create_new_block` inside `_add_block_notice`. -/
def create_new_block (ft : FileType) (lines : List (List Char))
    (notice : List Char) : List (List Char) :=
  insertAt lines (shebang_insert_i lines)
    (ft.block_start ++ '\n' :: (ft.block_prefix ++ notice ++ '\n' :: (ft.block_end ++ ['\n'])))

/-- Embedding of `expand_existing_block` inside `_add_block_notice`:
splits the found block-start line after the marker and any glued
non-whitespace characters, and splices the prefixed notice plus a
prefix-only line in between.  `none` models the `IndexError` raised when
the glued-character scan runs past the end of the line. -/
def expand_existing_block (ft : FileType) (lines : List (List Char)) (block_i : Nat)
    (notice : List Char) : Option (List (List Char)) :=
  let original := (lines.take 3).getD block_i []
  let base := split_base ft.block_start original
  match skipNonWs (original.drop base) with
  | none => none
  | some k =>
    let split_i := base + k
    some (lines.set block_i
      (rstrip (original.take split_i) ++
        '\n' :: (ft.block_prefix ++ notice ++
          '\n' :: (ft.block_prefix ++ original.drop split_i))))

/-- Embedding of `TxtFile._add_block_notice`: looks for a block-start line
among the first three lines; expands it if found (the raised `ValueError`
is caught), otherwise creates a fresh block. -/
def add_block_notice (ft : FileType) (lines : List (List Char))
    (notice : List Char) : Option (List (List Char)) :=
  match find_block_start ft.block_start (lines.take 3) with
  | none => some (create_new_block ft lines notice)
  | some i => expand_existing_block ft lines i notice

/-- Embedding of the core of `TxtFile.add` after the notice has been
instantiated from the format: dispatches on the truthiness of
`self.type.block_start`.  `none` models an escaping exception; the written
file content is the concatenation of the resulting lines (the new content
is strictly longer than the old one, so the non-truncating write is a
full overwrite). -/
def txt_add (ft : FileType) (lines : List (List Char))
    (notice : List Char) : Option (List (List Char)) :=
  if ft.block_start = [] then some (add_comment_notice ft.comment lines notice)
  else add_block_notice ft lines notice

/-- Python's `''.join(lines)` / the content written by `f.writelines`. -/
def joinLines (lines : List (List Char)) : List Char := lines.flatten

/-- Python's `fnmatch.fnmatch` for the glob dialect actually present in
`file_types` (`*`, `?` and literal characters; no character classes are
used by the table). -/
def globMatch : List Char → List Char → Bool
  | [], [] => true
  | '*' :: ps, [] => globMatch ps []
  | _ :: _, [] => false
  | [], _ :: _ => false
  | '*' :: ps, c :: cs => globMatch ps (c :: cs) || globMatch ('*' :: ps) cs
  | '?' :: ps, _ :: cs => globMatch ps cs
  | p :: ps, c :: cs => decide (p = c) && globMatch ps cs
termination_by pat s => (pat.length, s.length)

/-- Python `Path.name`: the part of the path after the last `'/'`. -/
def baseName (p : List Char) : List Char :=
  (p.reverse.takeWhile (· ≠ '/')).reverse

/-- Embedding of the module-level `recognize`: first `file_types` entry
(in table order) with a pattern matching the path's base name, else
`none` (Python falls off the loop and returns `None`). -/
def recognize (p : List Char) : Option FileType :=
  fileTypesList.findSome? fun t =>
    if t.patterns.any (fun pat => globMatch pat (baseName p)) then some t else none

/-- Filesystem and version-control collaborators of
`Copywriter._find_files`: `isFile`/`isDir` are `Path.is_file`/`Path.is_dir`,
`globFiles root pat` is `glob.glob(f'{root}/**/{pat}', recursive=True)`,
and `isTracked` is the `git ls-files --error-unmatch` probe. -/
structure FS where
  isFile : List Char → Bool
  isDir : List Char → Bool
  globFiles : List Char → List Char → List (List Char)
  isTracked : List Char → Bool

/-- Embedding of `Copywriter._find_files`: roots that are recognized
files, plus every glob hit of every registered pattern beneath each
directory root, filtered to git-tracked paths.  The Python `set` is
modelled as a list (callers only inspect membership/emptiness here); a
root that is neither a file nor a directory is simply never selected by
either filter. -/
def find_files (fs : FS) (roots : List (List Char)) : List (List Char) :=
  let fileRoots := roots.filter fun p => fs.isFile p && (recognize p).isSome
  let dirHits := (roots.filter fs.isDir).flatMap fun root =>
    (fileTypesList.flatMap (·.patterns)).flatMap fun pat => fs.globFiles root pat
  (fileRoots ++ dirHits).filter fs.isTracked

/-- Python exception classes that the embedded operations can raise. -/
inductive PyError
  | valueError : PyError
  | indexError : PyError
deriving DecidableEq, Repr

/-- State built by `Copywriter.__init__` (the fields relevant to file
discovery). -/
structure CopywriterState where
  roots : List (List Char)
  files : List (List Char)
deriving DecidableEq, Repr

/-- Embedding of `Copywriter.__init__`: converts the roots and runs
`_find_files`.  The body contains no `raise` and calls nothing that
raises on a nonexistent root (`Path(...)` accepts any string and
`is_file`/`is_dir` return `False`), so construction always succeeds; the
`Except` result records that no exception escapes. -/
def copywriter_init (fs : FS) (roots : List (List Char)) :
    Except PyError CopywriterState :=
  Except.ok { roots := roots, files := find_files fs roots }

/-- Python `collections.Counter(l)[x]`. -/
def countOcc (x : List Char) (l : List (List Char)) : Nat :=
  (l.filter (· = x)).length

/-- First-occurrence deduplication: the iteration order of
`collections.Counter`'s keys. -/
def dedupFirst : List (List Char) → List (List Char)
  | [] => []
  | x :: t => x :: (dedupFirst t).filter (· ≠ x)

/-- Python `collections.Counter(l).most_common(n=1)` reduced to its first
element: a key with maximal multiplicity, ties resolved in favour of the
key encountered first; `none` on an empty counter. -/
def most_common1 (l : List (List Char)) : Option (List Char) :=
  (dedupFirst l).foldl
    (fun best x =>
      match best with
      | none => some x
      | some b => if countOcc b l < countOcc x l then some x else some b)
    none

/-- Embedding of `Copywriter.auto_header` applied to the derived formats
of the scanned files: empty formats are dropped by `filter(None, ...)`,
and `counter.most_common(n=1)[0][0]` raises `IndexError` when the counter
is empty. -/
def auto_header (formats : List (List Char)) : Except PyError (List Char) :=
  match most_common1 (formats.filter (· ≠ [])) with
  | some f => Except.ok f
  | none => Except.error PyError.indexError

/-- Header chosen by `Copywriter.add_missing`: `header or self.auto_header`. -/
def add_missing_header (passed : List Char) (formats : List (List Char)) :
    Except PyError (List Char) :=
  if passed = [] then auto_header formats else Except.ok passed

/-- A four-digit year group, as matched by `[0-9]{4}`. -/
def isFourDigits (ds : List Char) : Prop :=
  ds.length = 4 ∧ ∀ c ∈ ds, c.isDigit = true

instance (ds : List Char) : Decidable (isFourDigits ds) := by
  unfold isFourDigits; infer_instance

/-- Filesystem on which no path exists, nothing globs and nothing is
tracked: the environment seen by a `Copywriter` constructed on a
nonexistent root. -/
def fsNone : FS :=
  { isFile := fun _ => false
    isDir := fun _ => false
    globFiles := fun _ _ => []
    isTracked := fun _ => false }

/-!  Theorems.  Each claim of the specification is settled below; helper
lemmas about the embedded operations come first. -/

theorem match4Digits_of_four {ds : List Char} (h : isFourDigits ds) (r : List Char) :
    match4Digits (ds ++ r) = some (ds, r) := by
  obtain ⟨hlen, hdig⟩ := h
  rcases ds with _ | ⟨a, _ | ⟨b, _ | ⟨c, _ | ⟨d, _ | ⟨e, t⟩⟩⟩⟩⟩ <;> simp_all [match4Digits]

theorem match4Digits_none_of_head {c : Char} {t : List Char} (h : c.isDigit = false) :
    match4Digits (c :: t) = none := by
  rcases t with _ | ⟨b, _ | ⟨b2, _ | ⟨b3, rest⟩⟩⟩ <;> simp_all [match4Digits]

theorem findAll4Digits_four_append {ds : List Char} (h : isFourDigits ds) (r : List Char) :
    findAll4Digits (ds ++ r) = ds :: findAll4Digits r := by
  obtain ⟨hlen, hdig⟩ := h
  rcases ds with _ | ⟨a, _ | ⟨b, _ | ⟨c, _ | ⟨d, _ | ⟨e, t⟩⟩⟩⟩⟩ <;> simp_all [findAll4Digits]

theorem findAll4Digits_cons_nondigit {c : Char} {t : List Char} (h : c.isDigit = false) :
    findAll4Digits (c :: t) = findAll4Digits t := by
  rcases t with _ | ⟨b, _ | ⟨b2, _ | ⟨b3, rest⟩⟩⟩ <;> simp_all [findAll4Digits]

theorem findAll4Digits_skip {mid x : List Char} (h : ∀ c ∈ mid, c.isDigit = false) :
    findAll4Digits (mid ++ x) = findAll4Digits x := by
  induction mid with
  | nil => rfl
  | cons c m ih =>
    rw [List.cons_append, findAll4Digits_cons_nondigit (h c (by simp))]
    exact ih fun c' hc' => h c' (by simp [hc'])

theorem findAll4Digits_of_four {ds : List Char} (h : isFourDigits ds) :
    findAll4Digits ds = [ds] := by
  have := findAll4Digits_four_append h []
  rwa [List.append_nil] at this

theorem findAll4Digits_of_two {ds1 mid ds2 : List Char}
    (h1 : isFourDigits ds1) (h2 : isFourDigits ds2)
    (hmid : ∀ c ∈ mid, c.isDigit = false) :
    findAll4Digits (ds1 ++ mid ++ ds2) = [ds1, ds2] := by
  rw [List.append_assoc, findAll4Digits_four_append h1 (mid ++ ds2),
    findAll4Digits_skip hmid, findAll4Digits_of_four h2]

theorem findYearSplit_ne_nil {s : List Char} {x : List Char × List Char × List Char}
    (h : findYearSplit s = some x) : s ≠ [] := by
  intro he
  rw [he] at h
  simp [findYearSplit] at h

/-- C1: for every file whose header contains a parsable year token giving
the half-open range `[start, end)` — a single-year header `Y` giving
`[Y, Y+1)` and a two-year header `Y1-Y2` giving `[Y1, Y2+1)` — and whose
modification year is obtained, `header_is_outdated` is `true` iff
`end ≤ modification_year`. -/
theorem header_outdated_iff_modYear_ge_end :
    (∀ (content : List Char) (modYear s e : Nat),
        year_range content = YearRangeResult.range s e →
        (header_is_outdated content modYear = true ↔ e ≤ modYear)) ∧
    (∀ (content pre ds rest : List Char),
        findYearSplit (copyright_str content) = some (pre, ds, rest) →
        isFourDigits ds →
        year_range content = YearRangeResult.range (toYear ds) (toYear ds + 1)) ∧
    (∀ (content pre ds1 mid ds2 rest : List Char),
        findYearSplit (copyright_str content) = some (pre, ds1 ++ mid ++ ds2, rest) →
        isFourDigits ds1 → isFourDigits ds2 →
        (∀ c ∈ mid, c.isDigit = false) →
        year_range content = YearRangeResult.range (toYear ds1) (toYear ds2 + 1)) := by
  refine ⟨?_, ?_, ?_⟩
  · intro content modYear s e h
    simp [header_is_outdated, h]
  · intro content pre ds rest h h4
    have hne : ¬ copyright_str content = [] := findYearSplit_ne_nil h
    simp only [year_range, if_neg hne, h, findAll4Digits_of_four h4, List.map_cons,
      List.map_nil]
  · intro content pre ds1 mid ds2 rest h h1 h2 hmid
    have hne : ¬ copyright_str content = [] := findYearSplit_ne_nil h
    simp only [year_range, if_neg hne, h, findAll4Digits_of_two h1 h2 hmid,
      List.map_cons, List.map_nil]

/-- Witness for C1 at the spec's example: header `"2018-2019"` (range
`[2018, 2020)`) is outdated in modification year 2020 but not in 2019,
and the single-year/two-year parses give the stated ranges. -/
theorem header_outdated_iff_modYear_ge_end_witness :
    header_is_outdated ("// Copyright 2018-2019 Bob\n".data) 2020 = true ∧
    header_is_outdated ("// Copyright 2018-2019 Bob\n".data) 2019 = false ∧
    year_range ("# Copyright 2019 Bob\n".data) = YearRangeResult.range 2019 2020 ∧
    year_range ("// Copyright 2018-2019 Bob\n".data) = YearRangeResult.range 2018 2020 := by
  refine ⟨?_, ?_, ?_, ?_⟩
  · exact (header_outdated_iff_modYear_ge_end.1 _ 2020 2018 2020 (by decide)).mpr (by decide)
  · cases hb : header_is_outdated ("// Copyright 2018-2019 Bob\n".data) 2019 with
    | false => rfl
    | true =>
      exact absurd ((header_outdated_iff_modYear_ge_end.1 _ 2019 2018 2020 (by decide)).mp hb)
        (by decide)
  · have := header_outdated_iff_modYear_ge_end.2.1 ("# Copyright 2019 Bob\n".data)
      ("Copyright ".data) ("2019".data) (" Bob".data) (by decide) (by decide)
    simpa using this
  · have := header_outdated_iff_modYear_ge_end.2.2 ("// Copyright 2018-2019 Bob\n".data)
      ("Copyright ".data) ("2018".data) ("-".data) ("2019".data) (" Bob".data)
      (by decide) (by decide) (by decide) (by decide)
    simpa using this

/-- C5: whenever the copyright string is absent, has no year token, or its
year range computation fails, `header_is_outdated` is `false` (the
`ValueError` is caught; no exception escapes), regardless of the
modification year. -/
theorem header_outdated_fails_closed :
    ∀ (content : List Char) (modYear : Nat),
      (copyright_str content = [] → header_is_outdated content modYear = false) ∧
      (findYearSplit (copyright_str content) = none →
        header_is_outdated content modYear = false) ∧
      (year_range content = YearRangeResult.err →
        header_is_outdated content modYear = false) ∧
      (year_range content = YearRangeResult.noYear →
        header_is_outdated content modYear = false) := by
  intro content modYear
  refine ⟨?_, ?_, ?_, ?_⟩
  · intro h
    simp [header_is_outdated, year_range, h]
  · intro h
    by_cases hcs : copyright_str content = []
    · simp [header_is_outdated, year_range, hcs]
    · simp [header_is_outdated, year_range, hcs, h]
  · intro h
    simp [header_is_outdated, h]
  · intro h
    simp [header_is_outdated, h]

/-- Witness for C5: a file with no copyright line, and one whose copyright
line has no year token, are never reported outdated — even at a huge
modification year. -/
theorem header_outdated_fails_closed_witness :
    header_is_outdated ("int main() { return 0; }\n".data) 9999 = false ∧
    header_is_outdated ("# Copyright Bob\n".data) 9999 = false := by
  constructor
  · exact (header_outdated_fails_closed ("int main() { return 0; }\n".data) 9999).1 (by decide)
  · exact (header_outdated_fails_closed ("# Copyright Bob\n".data) 9999).2.1 (by decide)

/-- C2: on a file whose year token parses to a range, `update` rewrites
exactly the year-token substring of the matched copyright string to
`{start}-{modification_year}` (a two-number range), and substitutes only
the first copyright-regex match of the full content.  The hypothesis
`copyright_str content = tok` states that the match found in the
1000-character search window is the first match of the whole content, and
the backslash exclusion marks the modelling boundary for `re.sub`'s
replacement-escape processing. -/
theorem update_rewrites_year_token :
    ∀ (content : List Char) (modYear s e : Nat)
      (pre tok post tp yt tr : List Char),
      year_range content = YearRangeResult.range s e →
      findCopyrightSplit content = some (pre, tok, post) →
      copyright_str content = tok →
      findYearSplit tok = some (tp, yt, tr) →
      '\\' ∉ tok →
      update_content content modYear =
        some (pre ++ (tp ++ (natToDigits s ++ '-' :: natToDigits modYear) ++ tr) ++ post) := by
  intro content modYear s e pre tok post tp yt tr hyr hfc hcs hys _hbs
  simp [update_content, hyr, sub_first_copyright, hfc, hcs, sub_first_year, hys]

/-- Witness for C2 at the spec's examples: `"Copyright 2018-2019 Bob"`
modified in 2020 becomes exactly `"Copyright 2018-2020 Bob"`, and the
single-year `"Copyright 2019 Bob"` becomes `"Copyright 2019-2020 Bob"`
(checked both on the substituted content and on the written file). -/
theorem update_rewrites_year_token_witness :
    update_content ("// Copyright 2018-2019 Bob\n".data) 2020 =
      some ("// ".data ++ ("Copyright ".data ++
        (natToDigits 2018 ++ '-' :: natToDigits 2020) ++ " Bob".data) ++ "\n".data) ∧
    update_file ("// Copyright 2018-2019 Bob\n".data) 2020 =
      some ("// Copyright 2018-2020 Bob\n".data) ∧
    update_file ("# Copyright 2019 Bob\n".data) 2020 =
      some ("# Copyright 2019-2020 Bob\n".data) := by
  refine ⟨?_, by decide, by decide⟩
  exact update_rewrites_year_token ("// Copyright 2018-2019 Bob\n".data) 2020 2018 2020
    ("// ".data) ("Copyright 2018-2019 Bob".data) ("\n".data)
    ("Copyright ".data) ("2018-2019".data) (" Bob".data)
    (by decide) (by decide) (by decide) (by decide) (by decide)

/-- C6, counterexample: constructing a `Copywriter` on an explicit root
that resolves to no existing file (nor directory) does not fail — the
root is silently dropped by the `path.is_file()` / `Path.is_dir` filters
in `_find_files` and construction returns normally with no files. -/
theorem copywriter_init_missing_root_counterexample :
    copywriter_init fsNone ["missing_file.c".data] =
      Except.ok { roots := ["missing_file.c".data], files := [] } := by
  rfl

/-- C6 (amended): construction never raises; an explicit root path that is
neither an existing file nor an existing directory is silently ignored and
contributes nothing to the discovered file set. -/
theorem copywriter_init_ignores_missing_root :
    ∀ (fs : FS) (roots pre suf : List (List Char)) (r : List Char),
      copywriter_init fs roots =
        Except.ok { roots := roots, files := find_files fs roots } ∧
      (roots = pre ++ r :: suf → fs.isFile r = false → fs.isDir r = false →
        find_files fs roots = find_files fs (pre ++ suf)) := by
  intro fs roots pre suf r
  refine ⟨rfl, ?_⟩
  rintro rfl hf hd
  simp [find_files, List.filter_append, hf, hd]

/-- Witness for C6 (amended): a single nonexistent root yields a normal,
empty construction. -/
theorem copywriter_init_ignores_missing_root_witness :
    copywriter_init fsNone ["no_such.py".data] =
      Except.ok ⟨["no_such.py".data], find_files fsNone ["no_such.py".data]⟩ ∧
    find_files fsNone ["no_such.py".data] = find_files fsNone [] := by
  refine ⟨(copywriter_init_ignores_missing_root fsNone _ [] [] ("no_such.py".data)).1, ?_⟩
  exact (copywriter_init_ignores_missing_root fsNone _ [] [] ("no_such.py".data)).2 rfl rfl rfl

/-- C8: `update` writes the substituted content back at offset 0 without
truncating, so the resulting file content is the new content followed by
whatever trailing characters of the original content lie beyond the new
content's length. -/
theorem update_leaves_stale_tail :
    ∀ (content : List Char) (modYear : Nat) (nc : List Char),
      update_content content modYear = some nc →
      update_file content modYear = some (nc ++ content.drop nc.length) := by
  intro content modYear nc h
  simp [update_file, h]

/-- Witness for C8: `"Copyright 2019 - 2020 Bob\n"` is rewritten to the
shorter `"Copyright 2019-2020 Bob\n"`, and the stale trailing characters
`"b\n"` of the original content survive in the written file. -/
theorem update_leaves_stale_tail_witness :
    update_file ("Copyright 2019 - 2020 Bob\n".data) 2020 =
      some ("Copyright 2019-2020 Bob\n".data ++
        ("Copyright 2019 - 2020 Bob\n".data).drop ("Copyright 2019-2020 Bob\n".data).length) ∧
    update_file ("Copyright 2019 - 2020 Bob\n".data) 2020 =
      some ("Copyright 2019-2020 Bob\nb\n".data) := by
  refine ⟨?_, by decide⟩
  exact update_leaves_stale_tail ("Copyright 2019 - 2020 Bob\n".data) 2020
    ("Copyright 2019-2020 Bob\n".data) (by decide)

/-- C9: on a corpus whose files yield no non-empty derived format,
`auto_header` fails with an `IndexError` (from indexing the empty
`most_common` list) — not with a `ValueError` and not with a default —
and `add_missing` without an explicit header consequently fails the same
way. -/
theorem auto_header_empty_corpus_index_error :
    ∀ (contents : List (List Char)),
      (∀ c ∈ contents, txt_format c = []) →
      auto_header (contents.map txt_format) = Except.error PyError.indexError ∧
      add_missing_header [] (contents.map txt_format) = Except.error PyError.indexError ∧
      auto_header (contents.map txt_format) ≠ Except.error PyError.valueError := by
  intro contents h
  have hfil : (contents.map txt_format).filter (· ≠ []) = [] := by
    rw [List.filter_eq_nil_iff]
    intro a ha
    obtain ⟨c, hc, rfl⟩ := List.mem_map.mp ha
    simp [h c hc]
  have hah : auto_header (contents.map txt_format) = Except.error PyError.indexError := by
    unfold auto_header most_common1
    rw [hfil]
    rfl
  exact ⟨hah, by simp [add_missing_header, hah], by simp [hah]⟩

/-- Witness for C9: a corpus of two files without copyright headers. -/
theorem auto_header_empty_corpus_index_error_witness :
    auto_header (([[], "x = 1\n".data] : List (List Char)).map txt_format) =
      Except.error PyError.indexError ∧
    add_missing_header [] (([[], "x = 1\n".data] : List (List Char)).map txt_format) =
      Except.error PyError.indexError := by
  refine ⟨?_, ?_⟩
  · exact (auto_header_empty_corpus_index_error [[], "x = 1\n".data] (by decide)).1
  · exact (auto_header_empty_corpus_index_error [[], "x = 1\n".data] (by decide)).2.1

theorem skipNonWs_eq_none {s : List Char} (h : ∀ c ∈ s, isPyWhitespace c = false) :
    skipNonWs s = none := by
  induction s with
  | nil => rfl
  | cons c t ih =>
    simp [skipNonWs, h c (by simp), ih fun c' hc' => h c' (by simp [hc'])]

/-- C10: in the existing-block expansion of `add`, the glued-character
scan advances without a bounds check; whenever the located block-start
line has no whitespace character at or after the end of the marker, the
scan runs past the end of the string and the operation fails with an
`IndexError` instead of inserting the notice. -/
theorem expand_block_scan_index_error :
    ∀ (ft : FileType) (lines : List (List Char)) (notice : List Char) (bi : Nat),
      ft.block_start ≠ [] →
      find_block_start ft.block_start (lines.take 3) = some bi →
      (∀ c ∈ ((lines.take 3).getD bi []).drop
          (split_base ft.block_start ((lines.take 3).getD bi [])),
        isPyWhitespace c = false) →
      txt_add ft lines notice = none := by
  intro ft lines notice bi hbs hfind hnws
  unfold txt_add
  rw [if_neg hbs]
  unfold add_block_notice
  rw [hfind]
  simp only [expand_existing_block]
  rw [skipNonWs_eq_none hnws]

/-- Witness for C10: a C file whose only content is the two characters
`"/*"` (no trailing newline): the scan indexes past the end of the line
and `add` raises instead of inserting. -/
theorem expand_block_scan_index_error_witness :
    txt_add cStyleType [['/', '*']] ("Copyright 2020 Bob".data) = none := by
  exact expand_block_scan_index_error cStyleType [['/', '*']] ("Copyright 2020 Bob".data) 0
    (by decide) (by decide) (by decide)

theorem match4Digits_decomp {s d r : List Char} (h : match4Digits s = some (d, r)) :
    s = d ++ r := by
  unfold match4Digits at h
  split at h
  next a b c e rest =>
    split at h
    · cases h
      rfl
    · cases h
  next => cases h

theorem splitDash_eq (r : List Char) : (splitDash r).1 ++ (splitDash r).2 = r := by
  unfold splitDash
  split
  · rfl
  · rfl

theorem matchYearAt_decomp {s tok rest : List Char}
    (h : matchYearAt s = some (tok, rest)) : s = tok ++ rest := by
  unfold matchYearAt at h
  split at h
  next => cases h
  next d1 r1 hm =>
    have hs := match4Digits_decomp hm
    split at h
    next d2 r5 hm2 =>
      cases h
      symm
      calc d1 ++ r1.takeWhile (· = ' ') ++ (splitDash (r1.dropWhile (· = ' '))).1 ++
            (splitDash (r1.dropWhile (· = ' '))).2.takeWhile (· = ' ') ++ d2 ++ rest
          = d1 ++ (r1.takeWhile (· = ' ') ++ ((splitDash (r1.dropWhile (· = ' '))).1 ++
              ((splitDash (r1.dropWhile (· = ' '))).2.takeWhile (· = ' ') ++ (d2 ++ rest)))) := by
            simp [List.append_assoc]
        _ = d1 ++ (r1.takeWhile (· = ' ') ++ ((splitDash (r1.dropWhile (· = ' '))).1 ++
              ((splitDash (r1.dropWhile (· = ' '))).2.takeWhile (· = ' ') ++
                (splitDash (r1.dropWhile (· = ' '))).2.dropWhile (· = ' ')))) := by
            rw [← match4Digits_decomp hm2]
        _ = d1 ++ (r1.takeWhile (· = ' ') ++ ((splitDash (r1.dropWhile (· = ' '))).1 ++
              (splitDash (r1.dropWhile (· = ' '))).2)) := by
            rw [List.takeWhile_append_dropWhile]
        _ = d1 ++ (r1.takeWhile (· = ' ') ++ r1.dropWhile (· = ' ')) := by
            rw [splitDash_eq]
        _ = d1 ++ r1 := by rw [List.takeWhile_append_dropWhile]
        _ = s := hs.symm
    next hm2 =>
      cases h
      exact hs

theorem findYearSplit_decomp {s p tok r : List Char}
    (h : findYearSplit s = some (p, tok, r)) : s = p ++ tok ++ r := by
  induction s generalizing p tok r with
  | nil => simp [findYearSplit] at h
  | cons c t ih =>
    unfold findYearSplit at h
    split at h
    next tok0 rest0 hm =>
      cases h
      simpa using matchYearAt_decomp hm
    next hm =>
      split at h
      next p' tok' r' hf =>
        cases h
        simpa using ih hf
      next => cases h

theorem replaceYearPh_nil (y : List Char) : replaceYearPh y [] = [] := by
  conv_lhs => unfold replaceYearPh

theorem replaceYearPh_cons (y : List Char) (c : Char) (t : List Char) :
    replaceYearPh y (c :: t) =
      if yearPh <+: (c :: t) then y ++ replaceYearPh y (t.drop 5)
      else c :: replaceYearPh y t := by
  conv_lhs => unfold replaceYearPh

theorem replaceYearPh_cons_ne {c : Char} {t : List Char} (y : List Char) (h : c ≠ '{') :
    replaceYearPh y (c :: t) = c :: replaceYearPh y t := by
  rw [replaceYearPh_cons, if_neg]
  intro hp
  simp only [yearPh] at hp
  rw [List.cons_prefix_cons] at hp
  exact h hp.1.symm

theorem replaceYearPh_at (y rest : List Char) :
    replaceYearPh y (yearPh ++ rest) = y ++ replaceYearPh y rest := by
  show replaceYearPh y ('{' :: ('y' :: 'e' :: 'a' :: 'r' :: '}' :: rest)) = _
  rw [replaceYearPh_cons, if_pos]
  · simp
  · exact List.prefix_append yearPh rest

theorem replaceYearPh_no_lbrace {s : List Char} (y : List Char) (h : '{' ∉ s) :
    replaceYearPh y s = s := by
  induction s with
  | nil => exact replaceYearPh_nil y
  | cons c t ih =>
    rw [replaceYearPh_cons_ne y (fun hc => h (by simp [hc])),
      ih (fun hm => h (by simp [hm]))]

theorem replaceYearPh_append {a : List Char} (y b : List Char) (h : '{' ∉ a) :
    replaceYearPh y (a ++ b) = a ++ replaceYearPh y b := by
  induction a with
  | nil => simp
  | cons c t ih =>
    rw [List.cons_append, replaceYearPh_cons_ne y (fun hc => h (by simp [hc])),
      ih (fun hm => h (by simp [hm])), List.cons_append]

/-- C4, counterexample: the round trip fails as soon as the copyright
string itself contains the placeholder text.  For the copyright string
`"Copyright {year} 2019 Bob"`, `deriveFormat` yields
`"Copyright {year} {year} Bob"`, and re-instantiating with the original
year `"2019"` gives `"Copyright 2019 2019 Bob"`, not the original
string. -/
theorem format_roundtrip_counterexample :
    replaceYearPh ("2019".data) (txt_format ("Copyright {year} 2019 Bob".data)) ≠
      copyright_str ("Copyright {year} 2019 Bob".data) := by
  have h1 : txt_format ("Copyright {year} 2019 Bob".data) =
      "Copyright ".data ++ (yearPh ++ (' ' :: (yearPh ++ " Bob".data))) := by decide
  rw [h1, replaceYearPh_append _ _ (by decide), replaceYearPh_at,
    replaceYearPh_cons_ne _ (by decide), replaceYearPh_at,
    replaceYearPh_no_lbrace _ (by decide)]
  decide

/-- C4 (amended): for every copyright string that contains a year token
and no curly-brace character, deriving the format (`TxtFile.format`
replaces the first year-token occurrence with the placeholder `{year}`)
and re-instantiating the template with the original year token reproduces
the original copyright string exactly — for single-year and two-year
tokens alike. -/
theorem format_roundtrip :
    ∀ (content pre tok rest : List Char),
      findYearSplit (copyright_str content) = some (pre, tok, rest) →
      '{' ∉ copyright_str content → '}' ∉ copyright_str content →
      replaceYearPh tok (txt_format content) = copyright_str content := by
  intro content pre tok rest hfy hbl _hbr
  have hdec : copyright_str content = pre ++ tok ++ rest := findYearSplit_decomp hfy
  have hpre : '{' ∉ pre := fun hm => hbl (by simp [hdec, hm])
  have hrest : '{' ∉ rest := fun hm => hbl (by simp [hdec, hm])
  simp only [txt_format, sub_first_year, hfy]
  rw [List.append_assoc, replaceYearPh_append _ _ hpre, replaceYearPh_at,
    replaceYearPh_no_lbrace _ hrest, hdec, List.append_assoc]

/-- Witness for C4 (amended): the round trip holds on the two-year string
`"Copyright 2018-2019 Bob"` and on the single-year
`"Copyright 2019 Bob"`. -/
theorem format_roundtrip_witness :
    replaceYearPh ("2018-2019".data) (txt_format ("// Copyright 2018-2019 Bob\n".data)) =
      copyright_str ("// Copyright 2018-2019 Bob\n".data) ∧
    replaceYearPh ("2019".data) (txt_format ("# Copyright 2019 Bob\n".data)) =
      copyright_str ("# Copyright 2019 Bob\n".data) := by
  constructor
  · exact format_roundtrip _ ("Copyright ".data) ("2018-2019".data) (" Bob".data)
      (by decide) (by decide) (by decide)
  · exact format_roundtrip _ ("Copyright ".data) ("2019".data) (" Bob".data)
      (by decide) (by decide) (by decide)

theorem add_block_notice_shebang_head {ft : FileType} {u : List Char}
    {t out : List (List Char)} {notice : List Char}
    (hbs : ¬ ft.block_start <+: ('#' :: '!' :: u))
    (h : add_block_notice ft (('#' :: '!' :: u) :: t) notice = some out) :
    out.head? = some ('#' :: '!' :: u) := by
  have h3 : ((('#' :: '!' :: u) :: t).take 3) = ('#' :: '!' :: u) :: t.take 2 := rfl
  unfold add_block_notice at h
  split at h
  next hfb =>
    cases h
    simp [create_new_block, insertAt, shebang_insert_i, List.cons_prefix_cons]
  next bi hfb =>
    rw [h3] at hfb
    unfold find_block_start at hfb
    rw [if_neg hbs] at hfb
    obtain ⟨k, _, rfl⟩ := Option.map_eq_some'.mp hfb
    simp only [expand_existing_block] at h
    split at h
    next => cases h
    next k2 hsk =>
      cases h
      simp

/-- C7: for every comment form — line-comment insertion, new-block
creation and existing-block expansion — adding a notice to a file whose
line 0 begins with the shebang marker `'#!'` leaves line 0 in place: the
notice is inserted at or after line 1, never before line 0. -/
theorem add_notice_respects_shebang :
    ∀ ft ∈ fileTypesList, ∀ (l0 : List Char) (t : List (List Char))
        (notice : List Char) (out : List (List Char)),
      ['#', '!'] <+: l0 →
      txt_add ft (l0 :: t) notice = some out →
      out.head? = some l0 := by
  intro ft hft l0 t notice out hsh hadd
  obtain ⟨u, rfl⟩ := hsh
  simp only [List.cons_append, List.nil_append] at hadd ⊢
  fin_cases hft
  · exact @add_block_notice_shebang_head cStyleType u t out notice
      (by rw [show cStyleType.block_start = '/' :: '*' :: [] from rfl,
            List.cons_prefix_cons]
          rintro ⟨h1, _⟩
          exact absurd h1 (by decide))
      (by simpa only [txt_add, show cStyleType.block_start = '/' :: '*' :: [] from rfl,
            if_neg (by decide : ¬ ('/' :: '*' :: [] : List Char) = [])] using hadd)
  · exact @add_block_notice_shebang_head pyStyleType u t out notice
      (by rw [show pyStyleType.block_start = '\"' :: '\"' :: '\"' :: [] from rfl,
            List.cons_prefix_cons]
          rintro ⟨h1, _⟩
          exact absurd h1 (by decide))
      (by simpa only [txt_add,
            show pyStyleType.block_start = '\"' :: '\"' :: '\"' :: [] from rfl,
            if_neg (by decide : ¬ ('\"' :: '\"' :: '\"' :: [] : List Char) = [])] using hadd)
  · rw [txt_add, if_pos (show cmakeType.block_start = [] from rfl)] at hadd
    cases hadd
    simp [add_comment_notice, insertAt, shebang_insert_i, List.cons_prefix_cons]
  · rw [txt_add, if_pos (show bashType.block_start = [] from rfl)] at hadd
    cases hadd
    simp [add_comment_notice, insertAt, shebang_insert_i, List.cons_prefix_cons]

/-- Witness for C7: adding to a bash script with a shebang keeps the
shebang as line 0. -/
theorem add_notice_respects_shebang_witness :
    (["#!/bin/sh\n".data, ('#' :: '\n' :: ('#' :: ' ' :: ("Copyright 2020 Bob".data ++
        '\n' :: ('#' :: ['\n']))))] : List (List Char)).head? =
      some ("#!/bin/sh\n".data) := by
  exact add_notice_respects_shebang bashType (by decide) ("#!/bin/sh\n".data) []
    ("Copyright 2020 Bob".data) _ (by decide) (by decide)

theorem mem_of_getElem?_some {l : List Char} {n : Nat} {c : Char} (h : l[n]? = some c) :
    c ∈ l := by
  have h2 : n < l.length := by
    by_contra hn
    rw [List.getElem?_eq_none (by omega)] at h
    cases h
  rw [List.getElem?_eq_getElem h2] at h
  cases h
  exact List.getElem_mem h2

theorem infix_iff_exists_drop {p s : List Char} : p <:+: s ↔ ∃ j, p <+: s.drop j := by
  constructor
  · rintro ⟨a, b, rfl⟩
    refine ⟨a.length, ?_⟩
    rw [List.append_assoc, List.drop_left]
    exact List.prefix_append p b
  · rintro ⟨j, u, hu⟩
    exact ⟨s.take j, u, by rw [List.append_assoc, hu, List.take_append_drop]⟩

theorem copyrightLit_infix_cases {A M T : List Char} (hM : M ≠ [])
    (h : copyrightLit <:+: A ++ M ++ T) :
    copyrightLit <:+: A ∨ 'C' ∈ M ∨
      (∃ ch, M.head? = some ch ∧ ch ∈ copyrightLit) ∨
      copyrightLit.length ≤ T.length := by
  obtain ⟨j, hj⟩ := infix_iff_exists_drop.mp h
  have hcl : copyrightLit.length = 10 := rfl
  have hlen : j + 10 ≤ A.length + M.length + T.length := by
    have h1 := hj.length_le
    simp only [List.length_drop, List.length_append, hcl] at h1
    rcases Nat.le_total j (A.length + M.length + T.length) with hle | hle
    · omega
    · exfalso
      have hz : A.length + M.length + T.length - j = 0 := by omega
      omega
  have hpt : ∀ i (hi : i < 10),
      (A ++ M ++ T)[j + i]? = some (copyrightLit.get ⟨i, by omega⟩) := by
    intro i hi
    have := (List.isPrefix_iff.mp hj) i (by omega)
    rwa [List.getElem?_drop] at this
  by_cases h1 : j + 10 ≤ A.length
  · left
    rw [infix_iff_exists_drop]
    refine ⟨j, List.isPrefix_iff.mpr ?_⟩
    intro i hi
    rw [List.getElem?_drop]
    have hp := hpt i (by omega)
    rwa [List.append_assoc, List.getElem?_append, if_pos (by omega)] at hp
  · by_cases h2 : j < A.length
    · -- the occurrence straddles the boundary between `A` and `M`
      right; right; left
      have hp := hpt (A.length - j) (by omega)
      rw [show j + (A.length - j) = A.length from by omega] at hp
      rw [List.append_assoc, List.getElem?_append_right (le_refl A.length),
        Nat.sub_self] at hp
      have hM0 : 0 < M.length := List.length_pos.mpr hM
      rw [List.getElem?_append, if_pos hM0] at hp
      refine ⟨copyrightLit.get ⟨A.length - j, by omega⟩, ?_, List.get_mem _ _ _⟩
      rwa [← List.head?_eq_getElem?] at hp
    · by_cases h3 : j < A.length + M.length
      · -- the occurrence starts inside `M`
        right; left
        have hp := hpt 0 (by omega)
        rw [Nat.add_zero] at hp
        rw [List.append_assoc, List.getElem?_append_right (by omega : A.length ≤ j),
          List.getElem?_append, if_pos (by omega)] at hp
        exact mem_of_getElem?_some hp
      · -- the occurrence would have to fit inside `T`
        right; right; right
        omega

theorem no_lit_at_drop {PRE W2 : List Char} (j : Nat)
    (hocc : ¬ copyrightLit <:+: PRE ++ copyrightLit.take 9)
    (hW2 : copyrightLit <+: W2)
    (hj : j < PRE.length) :
    ¬ copyrightLit <+: (PRE ++ W2).drop j := by
  intro hp
  apply hocc
  rw [List.isInfix_iff]
  have hcl : copyrightLit.length = 10 := rfl
  have h9 : (copyrightLit.take 9).length = 9 := rfl
  refine ⟨j, by simp only [List.length_append, hcl, h9]; omega, ?_⟩
  intro i hi
  have hpt := (List.isPrefix_iff.mp hp) i hi
  rw [List.getElem?_drop, Nat.add_comm j i] at hpt
  by_cases hc : i + j < PRE.length
  · rw [List.getElem?_append, if_pos hc]
    rwa [List.getElem?_append, if_pos (by omega)] at hpt
  · rw [List.getElem?_append, if_neg hc, List.getElem?_take, if_pos (by omega)]
    rw [List.getElem?_append, if_neg hc] at hpt
    have hW2pt : W2[i + j - PRE.length]? =
        some (copyrightLit.get ⟨i + j - PRE.length, by omega⟩) :=
      (List.isPrefix_iff.mp hW2) _ (by omega)
    rw [hW2pt] at hpt
    rw [List.getElem?_eq_getElem (by omega : i + j - PRE.length < copyrightLit.length)]
    exact hpt

theorem findCopyrightSplit_cons (c : Char) (t : List Char) :
    findCopyrightSplit (c :: t) =
      if copyrightLit <+: (c :: t) then
        some ([], copyrightLit ++ ((c :: t).drop copyrightLit.length).takeWhile (· ≠ '\n'),
          ((c :: t).drop copyrightLit.length).dropWhile (· ≠ '\n'))
      else
        match findCopyrightSplit t with
        | some (p, tok, r) => some (c :: p, tok, r)
        | none => none := by
  conv_lhs => unfold findCopyrightSplit

theorem findCopyrightSplit_prepend {PRE rest : List Char}
    (h : ∀ j, j < PRE.length → ¬ copyrightLit <+: (PRE ++ rest).drop j) :
    findCopyrightSplit (PRE ++ rest) =
      (findCopyrightSplit rest).map (fun x => (PRE ++ x.1, x.2.1, x.2.2)) := by
  induction PRE with
  | nil =>
    rcases h' : findCopyrightSplit rest with _ | ⟨p, tok, r⟩ <;> simp [h']
  | cons c P ih =>
    rw [List.cons_append, findCopyrightSplit_cons, if_neg (by simpa using h 0 (by simp))]
    rw [ih fun j hj => by simpa using h (j + 1) (by simp [hj])]
    rcases h' : findCopyrightSplit rest with _ | ⟨p, tok, r⟩ <;> simp [h']

theorem findCopyrightSplit_self (rest' : List Char) :
    findCopyrightSplit (copyrightLit ++ rest') =
      some ([], copyrightLit ++ rest'.takeWhile (· ≠ '\n'), rest'.dropWhile (· ≠ '\n')) := by
  have hpre : copyrightLit <+: copyrightLit ++ rest' := List.prefix_append _ _
  rw [show copyrightLit ++ rest' =
      'C' :: ('o' :: 'p' :: 'y' :: 'r' :: 'i' :: 'g' :: 'h' :: 't' :: ' ' :: rest') from rfl]
    at hpre ⊢
  rw [findCopyrightSplit_cons, if_pos hpre]
  rfl

theorem takeWhile_append_of_all {p : Char → Bool} {xs : List Char} (ys : List Char)
    (h : ∀ x ∈ xs, p x) : (xs ++ ys).takeWhile p = xs ++ ys.takeWhile p := by
  induction xs with
  | nil => simp
  | cons a t ih => simp_all [List.takeWhile_cons]

/-- Core extraction lemma: in a file whose content is `PRE`, then a
copyright notice `copyrightLit ++ nrest`, then a newline and arbitrary
text, `copyright_str` recovers exactly the notice, provided no
copyright-regex occurrence starts inside `PRE` and the notice lies within
the 1000-character search window. -/
theorem copyright_str_insert {PRE nrest POST : List Char}
    (hocc : ¬ copyrightLit <:+: PRE ++ copyrightLit.take 9)
    (hnl : ∀ c ∈ nrest, c ≠ '\n')
    (hlen : PRE.length + 10 + nrest.length ≤ 1000) :
    copyright_str (PRE ++ (copyrightLit ++ nrest) ++ '\n' :: POST) =
      copyrightLit ++ nrest := by
  have hcl : copyrightLit.length = 10 := rfl
  have hw : (PRE ++ (copyrightLit ++ nrest) ++ '\n' :: POST).take 1000 =
      PRE ++ ((copyrightLit ++ nrest) ++
        ('\n' :: POST).take (1000 - PRE.length - (copyrightLit ++ nrest).length)) := by
    rw [List.append_assoc, List.take_append_eq_append_take,
      List.take_of_length_le (show PRE.length ≤ 1000 by omega),
      List.take_append_eq_append_take,
      List.take_of_length_le (show (copyrightLit ++ nrest).length ≤ 1000 - PRE.length by
        simp only [List.length_append, hcl]; omega)]
  have hW2 : copyrightLit <+: (copyrightLit ++ nrest) ++
      ('\n' :: POST).take (1000 - PRE.length - (copyrightLit ++ nrest).length) := by
    rw [List.append_assoc]
    exact List.prefix_append _ _
  have htw : (nrest ++ ('\n' :: POST).take
      (1000 - PRE.length - (copyrightLit ++ nrest).length)).takeWhile (· ≠ '\n') = nrest := by
    rw [takeWhile_append_of_all _ (fun x hx => by simpa using hnl x hx)]
    rcases hk : 1000 - PRE.length - (copyrightLit ++ nrest).length with _ | m
    · simp
    · simp [List.takeWhile_cons]
  rw [copyright_str, hw, findCopyrightSplit_prepend
    (fun j hj => no_lit_at_drop j hocc hW2 hj),
    List.append_assoc copyrightLit nrest
      (('\n' :: POST).take (1000 - PRE.length - (copyrightLit ++ nrest).length)),
    findCopyrightSplit_self]
  rw [Option.map_some']
  rw [htw]

theorem rstrip_prefix_self (s : List Char) : rstrip s <+: s :=
  ⟨(s.reverse.takeWhile isPyWhitespace).reverse, by
    rw [rstrip, ← List.reverse_append, List.takeWhile_append_dropWhile, List.reverse_reverse]⟩

/-- Shared step for C3: the extracted copyright string of any content of
the shape `(A ++ M) ++ notice ++ newline ++ rest` is exactly the notice,
when `A` is a prefix of the original joined file content (which contains
no copyright-regex occurrence), and the separator `M` neither contains
`'C'` nor starts with a character of the copyright literal. -/
theorem copyright_str_parts {JL A M nrest POST : List Char}
    (hA : A <+: JL) (hMne : M ≠ [])
    (hMC : 'C' ∉ M)
    (hMh : ∀ ch ∈ copyrightLit, M.head? ≠ some ch)
    (hocc : ¬ copyrightLit <:+: JL ++ copyrightLit.take 9)
    (hnl : ∀ c ∈ nrest, c ≠ '\n')
    (hlen : JL.length + (10 + nrest.length) + 12 ≤ 1000)
    (hMlen : M.length ≤ 6) :
    copyright_str ((A ++ M) ++ (copyrightLit ++ nrest) ++ '\n' :: POST) =
      copyrightLit ++ nrest := by
  have hcl : copyrightLit.length = 10 := rfl
  apply copyright_str_insert
  · intro hinf
    rcases copyrightLit_infix_cases hMne hinf with hca | hcb | ⟨ch, hch, hchm⟩ | hcd
    · exact hocc (hca.trans (hA.isInfix.trans
        (List.prefix_append JL (copyrightLit.take 9)).isInfix))
    · exact hMC hcb
    · exact hMh ch hchm hch
    · exact absurd hcd (by decide)
  · exact hnl
  · have hAle := hA.length_le
    simp only [List.length_append]
    omega

theorem add_comment_notice_flatten (comment : List Char) (lines : List (List Char))
    (notice : List Char) :
    joinLines (add_comment_notice comment lines notice) =
      ((lines.take (shebang_insert_i lines)).flatten ++
          (comment ++ '\n' :: (comment ++ [' ']))) ++
        notice ++ '\n' :: (comment ++ '\n' :: (lines.drop (shebang_insert_i lines)).flatten) := by
  simp [add_comment_notice, insertAt, joinLines]

theorem create_new_block_flatten (ft : FileType) (lines : List (List Char))
    (notice : List Char) :
    joinLines (create_new_block ft lines notice) =
      ((lines.take (shebang_insert_i lines)).flatten ++
          (ft.block_start ++ '\n' :: ft.block_prefix)) ++
        notice ++ '\n' :: (ft.block_end ++ '\n' ::
          (lines.drop (shebang_insert_i lines)).flatten) := by
  simp [create_new_block, insertAt, joinLines]

theorem expand_existing_block_flatten {ft : FileType} {lines out : List (List Char)}
    {bi : Nat} {notice : List Char}
    (hbil : bi < lines.length)
    (h : expand_existing_block ft lines bi notice = some out) :
    ∃ k, joinLines out =
      (((lines.take bi).flatten ++ rstrip (((lines.take 3).getD bi []).take k)) ++
          ('\n' :: ft.block_prefix)) ++
        notice ++ '\n' :: (ft.block_prefix ++
          (((lines.take 3).getD bi []).drop k ++ (lines.drop (bi + 1)).flatten)) := by
  simp only [expand_existing_block] at h
  split at h
  next => cases h
  next k2 hsk =>
    cases h
    refine ⟨split_base ft.block_start ((lines.take 3).getD bi []) + k2, ?_⟩
    rw [joinLines, List.set_eq_take_cons_drop _ hbil]
    simp [List.append_assoc]

theorem find_block_start_lt {bs : List Char} {L : List (List Char)} {i : Nat}
    (h : find_block_start bs L = some i) : i < L.length := by
  induction L generalizing i with
  | nil => cases h
  | cons l rest ih =>
    unfold find_block_start at h
    split at h
    · cases h
      simp
    · obtain ⟨k, hk, rfl⟩ := Option.map_eq_some'.mp h
      have := ih hk
      simp only [List.length_cons]
      omega

theorem c3_comment_path {comment : List Char} {lines : List (List Char)} {nrest : List Char}
    (hMne : comment ++ '\n' :: (comment ++ [' ']) ≠ [])
    (hMC : 'C' ∉ comment ++ '\n' :: (comment ++ [' ']))
    (hMh : ∀ ch ∈ copyrightLit, (comment ++ '\n' :: (comment ++ [' '])).head? ≠ some ch)
    (hMlen : (comment ++ '\n' :: (comment ++ [' '])).length ≤ 6)
    (hnl : ∀ c ∈ nrest, c ≠ '\n')
    (hocc : ¬ copyrightLit <:+: joinLines lines ++ copyrightLit.take 9)
    (hlen : (joinLines lines).length + (10 + nrest.length) + 12 ≤ 1000) :
    copyright_str (joinLines (add_comment_notice comment lines (copyrightLit ++ nrest))) =
      copyrightLit ++ nrest := by
  rw [add_comment_notice_flatten]
  refine copyright_str_parts ?_ hMne hMC hMh hocc hnl hlen hMlen
  exact ⟨(lines.drop (shebang_insert_i lines)).flatten, by
    simp only [joinLines]
    rw [← List.flatten_append, List.take_append_drop]⟩

theorem c3_create_path {ft : FileType} {lines : List (List Char)} {nrest : List Char}
    (hMne : ft.block_start ++ '\n' :: ft.block_prefix ≠ [])
    (hMC : 'C' ∉ ft.block_start ++ '\n' :: ft.block_prefix)
    (hMh : ∀ ch ∈ copyrightLit, (ft.block_start ++ '\n' :: ft.block_prefix).head? ≠ some ch)
    (hMlen : (ft.block_start ++ '\n' :: ft.block_prefix).length ≤ 6)
    (hnl : ∀ c ∈ nrest, c ≠ '\n')
    (hocc : ¬ copyrightLit <:+: joinLines lines ++ copyrightLit.take 9)
    (hlen : (joinLines lines).length + (10 + nrest.length) + 12 ≤ 1000) :
    copyright_str (joinLines (create_new_block ft lines (copyrightLit ++ nrest))) =
      copyrightLit ++ nrest := by
  rw [create_new_block_flatten]
  refine copyright_str_parts ?_ hMne hMC hMh hocc hnl hlen hMlen
  exact ⟨(lines.drop (shebang_insert_i lines)).flatten, by
    simp only [joinLines]
    rw [← List.flatten_append, List.take_append_drop]⟩

theorem c3_expand_path {ft : FileType} {lines out : List (List Char)} {bi : Nat}
    {nrest : List Char}
    (hbi3 : bi < (lines.take 3).length)
    (hMC : 'C' ∉ '\n' :: ft.block_prefix)
    (hMh : ∀ ch ∈ copyrightLit, ('\n' :: ft.block_prefix).head? ≠ some ch)
    (hMlen : ('\n' :: ft.block_prefix).length ≤ 6)
    (hnl : ∀ c ∈ nrest, c ≠ '\n')
    (hocc : ¬ copyrightLit <:+: joinLines lines ++ copyrightLit.take 9)
    (hlen : (joinLines lines).length + (10 + nrest.length) + 12 ≤ 1000)
    (h : expand_existing_block ft lines bi (copyrightLit ++ nrest) = some out) :
    copyright_str (joinLines out) = copyrightLit ++ nrest := by
  have hbil : bi < lines.length := by
    rw [List.length_take] at hbi3
    omega
  obtain ⟨k, hk⟩ := expand_existing_block_flatten hbil h
  rw [hk]
  refine copyright_str_parts ?_ (by simp) hMC hMh hocc hnl hlen hMlen
  have horig : (lines.take 3).getD bi [] = lines[bi] := by
    rw [List.getD_eq_getElem?_getD, List.getElem?_eq_getElem hbi3, Option.getD_some,
      List.getElem_take]
  have hpre2 : rstrip (((lines.take 3).getD bi []).take k) <+: lines[bi] := by
    rw [horig]
    exact (rstrip_prefix_self _).trans ⟨_, List.take_append_drop k _⟩
  obtain ⟨w, hw⟩ := hpre2
  refine ⟨w ++ (lines.drop (bi + 1)).flatten, ?_⟩
  simp only [joinLines]
  calc (lines.take bi).flatten ++ rstrip (((lines.take 3).getD bi []).take k) ++
        (w ++ (lines.drop (bi + 1)).flatten)
      = (lines.take bi).flatten ++
          ((rstrip (((lines.take 3).getD bi []).take k) ++ w) ++
            (lines.drop (bi + 1)).flatten) := by simp [List.append_assoc]
    _ = (lines.take bi).flatten ++ (lines[bi] ++ (lines.drop (bi + 1)).flatten) := by
        rw [hw]
    _ = ((lines.take bi).flatten ++ lines[bi]) ++ (lines.drop (bi + 1)).flatten := by
        rw [List.append_assoc]
    _ = (lines.take (bi + 1)).flatten ++ (lines.drop (bi + 1)).flatten := by
        rw [← List.take_concat_get' lines bi hbil, List.flatten_append]
        simp
    _ = lines.flatten := by rw [← List.flatten_append, List.take_append_drop]

/-- C3: for every supported comment form — line comment, C-style block
with prefix, Python docstring block — and every file on which `add`
succeeds in inserting a notice, extracting the copyright string from the
resulting content returns exactly the inserted notice.  The hypotheses
state the claim's presuppositions: the notice is a copyright line
(`copyrightLit ++ nrest`, no embedded newline), the file held no
copyright-regex occurrence before the insertion, and the header lands
inside the 1000-character search window of `copyright_str`. -/
theorem add_then_extract_roundtrip :
    ∀ ft ∈ fileTypesList, ∀ (lines out : List (List Char)) (nrest : List Char),
      (∀ c ∈ nrest, c ≠ '\n') →
      ¬ copyrightLit <:+: joinLines lines ++ copyrightLit.take 9 →
      (joinLines lines).length + (10 + nrest.length) + 12 ≤ 1000 →
      txt_add ft lines (copyrightLit ++ nrest) = some out →
      copyright_str (joinLines out) = copyrightLit ++ nrest := by
  intro ft hft lines out nrest hnl hocc hlen hadd
  fin_cases hft
  · rw [txt_add, if_neg (by decide : ¬ cStyleType.block_start = [])] at hadd
    unfold add_block_notice at hadd
    split at hadd
    next =>
      cases hadd
      exact c3_create_path (by decide) (by decide) (by decide) (by decide) hnl hocc hlen
    next bi hfb =>
      exact c3_expand_path (find_block_start_lt hfb) (by decide) (by decide) (by decide)
        hnl hocc hlen hadd
  · rw [txt_add, if_neg (by decide : ¬ pyStyleType.block_start = [])] at hadd
    unfold add_block_notice at hadd
    split at hadd
    next =>
      cases hadd
      exact c3_create_path (by decide) (by decide) (by decide) (by decide) hnl hocc hlen
    next bi hfb =>
      exact c3_expand_path (find_block_start_lt hfb) (by decide) (by decide) (by decide)
        hnl hocc hlen hadd
  · rw [txt_add, if_pos (show cmakeType.block_start = [] from rfl)] at hadd
    cases hadd
    exact c3_comment_path (by decide) (by decide) (by decide) (by decide) hnl hocc hlen
  · rw [txt_add, if_pos (show bashType.block_start = [] from rfl)] at hadd
    cases hadd
    exact c3_comment_path (by decide) (by decide) (by decide) (by decide) hnl hocc hlen

/-- Witness for C3: adding `"Copyright 2020 Bob"` to a small C file (fresh
block creation), and extracting it back. -/
theorem add_then_extract_roundtrip_witness :
    copyright_str (joinLines
      [('/' :: '*' :: '\n' :: (' ' :: '*' :: ' ' :: (("Copyright 2020 Bob".data) ++
          '\n' :: (' ' :: '*' :: '/' :: ['\n'])))), "int x;\n".data]) =
      "Copyright 2020 Bob".data := by
  exact add_then_extract_roundtrip cStyleType (by decide) ["int x;\n".data] _
    ("2020 Bob".data) (by decide) (by decide) (by decide) (by decide)

end copywriter
